import Mathlib

/-!
Shallow embedding of `src/standalone/encode.py` (gemmlowp's ARM `udot`
instruction encoder).

The Python program scans stdin line by line, recognizes two forms of the
`udot` instruction via `re.search`, computes the 32-bit machine-code word,
and rewrites the line into a `.word` directive keeping the original text
in a comment.  Pre-existing `.word` annotations are read back and checked
for consistency; conflicts are reported on stderr and force exit status 1.

Strings are modelled as `List Char`.  The three regular expressions of the
source are embedded as token lists over single-character classes (the only
quantified subexpressions in the source patterns are character classes),
and the matcher `matchToks` reproduces Python's leftmost, greedy,
backtracking semantics: a starred/plus class first consumes the maximal
run and backtracks one character at a time.  `re.search` is `pysearch`,
which tries every start position from the left; the `\b` before `udot` is
modelled by requiring the preceding character to not be a word character
(both source patterns continue with the word character `u`, for which the
two conditions coincide).  Word characters are the ASCII ones, which
covers every character class mentioned by the program's patterns.

Python `assert` failures abort the whole run; fallible computations are
therefore embedded in `Except Unit`.
-/

/-- Character classes occurring in the source's regular expressions:
literal characters, `[ ]`, `[0-9]`, `[0-9a-f]`, and the unescaped `.`
(any character except newline, as Python's `re` without `DOTALL`). -/
inductive CClass where
  | lit (c : Char)
  | space
  | digit
  | lhex
  | dotAny
deriving Repr, DecidableEq

def CClass.test : CClass → Char → Bool
  | .lit c, d => d == c
  | .space, d => d == ' '
  | .digit, d => '0' ≤ d && d ≤ '9'
  | .lhex, d => ('0' ≤ d && d ≤ '9') || ('a' ≤ d && d ≤ 'f')
  | .dotAny, d => d != '\n'

/-- ASCII word characters, for the `\b` word boundary. -/
def isWordChar (c : Char) : Bool :=
  c.isAlpha || ('0' ≤ c && c ≤ '9') || c == '_'

/-- Pattern tokens.  Every quantifier in the source patterns ranges over a
single-character class, so this first-order token language is enough:
a single character, a greedy `*`/`+` over a class, a captured greedy `+`
(`([0-9]+)` and `(0x[0-9a-f]+)`'s digit part), and a captured single
character (`([0-9])`). -/
inductive Tok where
  | one (c : CClass)
  | star (c : CClass)
  | plus (c : CClass)
  | grpPlus (g : Nat) (c : CClass)
  | grpOne (g : Nat) (c : CClass)
deriving Repr, DecidableEq

/-- Captured groups: association list from group number to captured text. -/
abbrev Caps := List (Nat × List Char)

def addCap : Option Nat → List Char → Caps → Caps
  | none, _, cp => cp
  | some g, xs, cp => (g, xs) :: cp

def capOf (cp : Caps) (g : Nat) : List Char :=
  match cp.lookup g with
  | some xs => xs
  | none => []

/-- Length of the maximal run of characters of class `c` at the front. -/
def maxRun (c : CClass) : List Char → Nat
  | [] => 0
  | a :: s => if c.test a then maxRun c s + 1 else 0

/-- Greedy backtracking over the repetition count of one quantified class:
try consuming `i` characters, then `i-1`, ..., down to `lo` (0 for `*`,
1 for `+`), calling the continuation `f` on the remaining input.  When a
group number `g` is given, the consumed run is recorded as its capture. -/
def tryDrops (f : List Char → Option (Nat × Caps)) (g : Option Nat) (lo : Nat)
    (s : List Char) : Nat → Option (Nat × Caps)
  | 0 =>
    match f (List.drop 0 s) with
    | some (n, cp) => some (0 + n, addCap g (List.take 0 s) cp)
    | none => none
  | j + 1 =>
    match f (List.drop (j + 1) s) with
    | some (n, cp) => some (j + 1 + n, addCap g (List.take (j + 1) s) cp)
    | none => if j + 1 ≤ lo then none else tryDrops f g lo s j

/-- Backtracking matcher: first success, in Python's exploration order,
of the token list against a front segment of the input; returns the
number of characters consumed and the captures. -/
def matchToks : List Tok → List Char → Option (Nat × Caps)
  | [], _ => some (0, [])
  | .one c :: ts, s =>
    match s with
    | [] => none
    | a :: s' =>
      if c.test a then
        match matchToks ts s' with
        | some (n, cp) => some (n + 1, cp)
        | none => none
      else none
  | .grpOne g c :: ts, s =>
    match s with
    | [] => none
    | a :: s' =>
      if c.test a then
        match matchToks ts s' with
        | some (n, cp) => some (n + 1, (g, [a]) :: cp)
        | none => none
      else none
  | .star c :: ts, s => tryDrops (fun r => matchToks ts r) none 0 s (maxRun c s)
  | .plus c :: ts, s =>
    match maxRun c s with
    | 0 => none
    | k + 1 => tryDrops (fun r => matchToks ts r) none 1 s (k + 1)
  | .grpPlus g c :: ts, s =>
    match maxRun c s with
    | 0 => none
    | k + 1 => tryDrops (fun r => matchToks ts r) (some g) 1 s (k + 1)

/-- Whether a match may start here: with `needB` (the `\b` of the `udot`
patterns, whose next character is a word character) the position must be
at the start of the input or preceded by a non-word character. -/
def bOkFor (needB : Bool) (prev : Option Char) : Bool :=
  !needB ||
    (match prev with
     | none => true
     | some c => !isWordChar c)

/-- Scan of `re.search`: try a match at every position from the left
(also at the end-of-input position, as Python does).
Returns (start index, length, captures). -/
def searchAux (needB : Bool) (toks : List Tok) :
    Option Char → Nat → List Char → Option (Nat × Nat × Caps)
  | prev, idx, [] =>
    match (if bOkFor needB prev then matchToks toks [] else none) with
    | some (n, cp) => some (idx, n, cp)
    | none => none
  | prev, idx, a :: s' =>
    match (if bOkFor needB prev then matchToks toks (a :: s') else none) with
    | some (n, cp) => some (idx, n, cp)
    | none => searchAux needB toks (some a) (idx + 1) s'

def pysearch (needB : Bool) (toks : List Tok) (s : List Char) :
    Option (Nat × Nat × Caps) :=
  searchAux needB toks none 0 s

/-- Literal characters of a string, as tokens. -/
def String.toToks (s : String) : List Tok :=
  s.toList.map (fun c => Tok.one (.lit c))

/-- Pattern of `encode_udot_vector`:
`\budot[ ]+v([0-9]+)[ ]*.[ ]*4s[ ]*,[ ]*v([0-9]+)[ ]*.[ ]*16b[ ]*,[ ]*v([0-9]+)[ ]*.[ ]*16b` -/
def vectorToks : List Tok :=
  "udot".toToks ++ [.plus .space] ++ "v".toToks ++ [.grpPlus 1 .digit] ++
  [.star .space, .one .dotAny, .star .space] ++ "4s".toToks ++
  [.star .space] ++ ",".toToks ++ [.star .space] ++ "v".toToks ++
  [.grpPlus 2 .digit] ++ [.star .space, .one .dotAny, .star .space] ++
  "16b".toToks ++ [.star .space] ++ ",".toToks ++ [.star .space] ++ "v".toToks ++
  [.grpPlus 3 .digit] ++ [.star .space, .one .dotAny, .star .space] ++
  "16b".toToks

/-- Pattern of `encode_udot_element`:
`\budot[ ]+v([0-9]+)[ ]*.[ ]*4s[ ]*,[ ]*v([0-9]+)[ ]*.[ ]*16b[ ]*,[ ]*v([0-9]+)[ ]*.[ ]*4b[ ]*\[([0-9])\]` -/
def elementToks : List Tok :=
  "udot".toToks ++ [.plus .space] ++ "v".toToks ++ [.grpPlus 1 .digit] ++
  [.star .space, .one .dotAny, .star .space] ++ "4s".toToks ++
  [.star .space] ++ ",".toToks ++ [.star .space] ++ "v".toToks ++
  [.grpPlus 2 .digit] ++ [.star .space, .one .dotAny, .star .space] ++
  "16b".toToks ++ [.star .space] ++ ",".toToks ++ [.star .space] ++ "v".toToks ++
  [.grpPlus 3 .digit] ++ [.star .space, .one .dotAny, .star .space] ++
  "4b".toToks ++ [.star .space] ++ "[".toToks ++ [.grpOne 4 .digit] ++ "]".toToks

/-- Pattern of `read_existing_encoding`: `\.word\ (0x[0-9a-f]+)`.
The Python capture includes the `0x` prefix and is parsed with
`int(_, 16)`; here the capture holds just the hex digits, whose value is
the same number. -/
def wordToks : List Tok :=
  ".word 0x".toToks ++ [.grpPlus 1 .lhex]

/-- Value of a captured decimal digit string (Python `int`). -/
def decVal (s : List Char) : Nat :=
  s.foldl (fun a c => 10 * a + (c.toNat - '0'.toNat)) 0

def hexDigVal (c : Char) : Nat :=
  if '0' ≤ c && c ≤ '9' then c.toNat - '0'.toNat
  else 10 + (c.toNat - 'a'.toNat)

/-- Value of a captured lower-case hexadecimal digit string. -/
def hexVal (s : List Char) : Nat :=
  s.foldl (fun a c => 16 * a + hexDigVal c) 0

/-- `encode_udot_vector` of the source.  On a match, the three captured
register indices are converted with `int` and checked by three `assert`s
(on `Nat` the lower bounds `>= 0` are automatic); an assertion failure
aborts the program, hence `.error`.  The machine word is
`0x6e809400 | (accum << 0) | (lhs << 5) | (rhs << 16)` and the returned
text is the matched substring `m.group(0)`. -/
def encode_udot_vector (line : List Char) : Except Unit (Nat × List Char) :=
  match pysearch true vectorToks line with
  | none => .ok (0, line)
  | some (idx, n, cp) =>
    let accum := decVal (capOf cp 1)
    let lhs := decVal (capOf cp 2)
    let rhs := decVal (capOf cp 3)
    if accum ≤ 31 ∧ lhs ≤ 31 ∧ rhs ≤ 31 then
      .ok (0x6e809400 ||| accum ||| (lhs <<< 5) ||| (rhs <<< 16),
        (line.drop idx).take n)
    else .error ()

/-- `encode_udot_element` of the source.  The lane-group digit adds the
range assert `lanegroup <= 3`; the low bit goes to bit 21 and the high
bit to bit 11, via `l = 1 if lanegroup & 1 else 0` and
`h = 1 if lanegroup & 2 else 0`. -/
def encode_udot_element (line : List Char) : Except Unit (Nat × List Char) :=
  match pysearch true elementToks line with
  | none => .ok (0, line)
  | some (idx, n, cp) =>
    let accum := decVal (capOf cp 1)
    let lhs := decVal (capOf cp 2)
    let rhs := decVal (capOf cp 3)
    let lanegroup := decVal (capOf cp 4)
    if accum ≤ 31 ∧ lhs ≤ 31 ∧ rhs ≤ 31 ∧ lanegroup ≤ 3 then
      let l : Nat := if lanegroup &&& 1 = 0 then 0 else 1
      let hbit : Nat := if lanegroup &&& 2 = 0 then 0 else 1
      .ok (0x6f80e000 ||| accum ||| (lhs <<< 5) ||| (rhs <<< 16) |||
           (l <<< 21) ||| (hbit <<< 11),
        (line.drop idx).take n)
    else .error ()

/-- `encode` of the source: try the vector rule, then the element rule,
returning the first nonzero result; `(0, line)` when neither matches. -/
def encode (line : List Char) : Except Unit (Nat × List Char) := do
  let (m1, t1) ← encode_udot_vector line
  if m1 ≠ 0 then
    return (m1, t1)
  else
    let (m2, t2) ← encode_udot_element line
    if m2 ≠ 0 then
      return (m2, t2)
    else
      return (0, line)

/-- `read_existing_encoding` of the source: value of the leftmost
`\.word\ (0x[0-9a-f]+)` match, 0 when there is none. -/
def read_existing_encoding (line : List Char) : Nat :=
  match pysearch false wordToks line with
  | none => 0
  | some (_, _, cp) => hexVal (capOf cp 1)

/-- Fuel-indexed worker for `replaceAll`; each step consumes at least one
input character, so fuel `s.length` is always enough. -/
def replaceAllF (pat rep : List Char) : Nat → List Char → List Char
  | 0, s => s
  | fuel + 1, s =>
    match s with
    | [] => []
    | a :: s' =>
      if pat ≠ [] ∧ pat.isPrefixOf (a :: s') then
        rep ++ replaceAllF pat rep fuel (List.drop (pat.length - 1) s')
      else
        a :: replaceAllF pat rep fuel s'

/-- Python `str.replace`: replace every non-overlapping occurrence of
`pat` (nonempty in all uses here) by `rep`, scanning from the left. -/
def replaceAll (s pat rep : List Char) : List Char :=
  replaceAllF pat rep s.length s

/-- Lower-case hexadecimal rendering of Python's `'%x' % n`. -/
def natHex (n : Nat) : List Char := Nat.toDigits 16 n

/-- Decimal rendering of Python's `'%d' % n`. -/
def natDec (n : Nat) : List Char := Nat.toDigits 10 n

def squote : Char := Char.ofNat 39

/-- The replacement text `'.word 0x%x  // %s' % (mcode, match)`. -/
def directiveFor (mcode : Nat) (t : List Char) : List Char :=
  ".word 0x".toList ++ natHex mcode ++ "  // ".toList ++ t

/-- The conflict diagnostic
`"Error at line %d: existing encoding 0x%x differs from encoding 0x%x for instruction '%s':\n\n%s\n\n"`. -/
def errMsg (lineno existing mcode : Nat) (t line : List Char) : List Char :=
  "Error at line ".toList ++ natDec lineno ++
  ": existing encoding 0x".toList ++ natHex existing ++
  " differs from encoding 0x".toList ++ natHex mcode ++
  " for instruction ".toList ++ [squote] ++ t ++ [squote] ++
  ":\n\n".toList ++ line ++ "\n\n".toList

/-- The end-of-run informational note written to stderr. -/
def noteMsg : List Char :=
  "Note: some instructions that this program is able to encode, were already encoded. These encodings have been checked.\n".toList

/-- The two process-wide flags of the driver. -/
structure St where
  found_existing_encodings : Bool
  found_error : Bool
deriving Repr, DecidableEq

/-- One iteration of the driver's `for line in sys.stdin` loop: given the
flags, the 1-based line number and the line, produce the updated flags,
the line written to stdout, and the diagnostics written to stderr. -/
def processLine (st : St) (lineno : Nat) (line : List Char) :
    Except Unit (St × List Char × List (List Char)) := do
  let (mcode, t) ← encode line
  if mcode ≠ 0 then
    let existing := read_existing_encoding line
    if existing ≠ 0 then
      if mcode ≠ existing then
        return ({ found_existing_encodings := true, found_error := true },
                line, [errMsg lineno existing mcode t line])
      else
        return ({ st with found_existing_encodings := true }, line, [])
    else
      return (st, replaceAll line t (directiveFor mcode t), [])
  else
    return (st, line, [])

/-- The driver's loop over all input lines, threading the flags and the
line counter and collecting stdout lines and stderr messages in order. -/
def runLines (st : St) (lineno : Nat) :
    List (List Char) → Except Unit (St × List (List Char) × List (List Char))
  | [] => .ok (st, [], [])
  | l :: ls => do
    let (st1, out, msgs) ← processLine st lineno l
    let (st2, outs, msgss) ← runLines st1 (lineno + 1) ls
    return (st2, out :: outs, msgs ++ msgss)

/-- The whole program: input lines to (stdout lines, stderr messages,
exit status).  `sys.exit(1)` on any conflict (before the note check);
otherwise the note is emitted when existing encodings were seen, and the
implicit exit status is 0. -/
def runProgram (input : List (List Char)) :
    Except Unit (List (List Char) × List (List Char) × Nat) := do
  let (st, outs, errs) ← runLines ⟨false, false⟩ 1 input
  if st.found_error then
    return (outs, errs, 1)
  else if st.found_existing_encodings then
    return (outs, errs ++ [noteMsg], 0)
  else
    return (outs, errs, 0)

/-- A line is recognized when `encode` returns a nonzero word for it. -/
def recognizedB (l : List Char) : Bool :=
  match encode l with
  | .ok (m, _) => m != 0
  | .error _ => false

/-- A line on which the driver is a no-op: either nothing is recognized,
or the recognized instruction's existing annotation equals the freshly
computed word. -/
def lineStable (l : List Char) : Prop :=
  encode l = .ok (0, l) ∨
  ∃ m t, encode l = .ok (m, t) ∧ m ≠ 0 ∧ read_existing_encoding l = m

section Helpers

theorem or_ne_zero_left (a b : Nat) (h : a ≠ 0) : a ||| b ≠ 0 := by
  intro h0
  apply h
  apply Nat.eq_of_testBit_eq
  intro i
  have h1 := congrArg (fun n => n.testBit i) h0
  simp only [Nat.testBit_lor, Nat.zero_testBit, Bool.or_eq_false_iff] at h1
  simp [h1.1]

theorem processLine_noMatch (st : St) (k : Nat) (line t : List Char)
    (henc : encode line = .ok (0, t)) :
    processLine st k line = .ok (st, line, []) := by
  simp [processLine, henc, Bind.bind, Except.bind, Pure.pure, Except.pure]

theorem processLine_rewrite (st : St) (k : Nat) (line t : List Char) (m : Nat)
    (henc : encode line = .ok (m, t)) (hm : m ≠ 0)
    (hex : read_existing_encoding line = 0) :
    processLine st k line = .ok (st, replaceAll line t (directiveFor m t), []) := by
  simp [processLine, henc, hm, hex, Bind.bind, Except.bind, Pure.pure, Except.pure]

theorem processLine_consistent (st : St) (k : Nat) (line t : List Char) (m : Nat)
    (henc : encode line = .ok (m, t)) (hm : m ≠ 0)
    (hex : read_existing_encoding line = m) :
    processLine st k line =
      .ok ({ st with found_existing_encodings := true }, line, []) := by
  simp [processLine, henc, hm, hex, Bind.bind, Except.bind, Pure.pure, Except.pure]

theorem processLine_conflict (st : St) (k : Nat) (line t : List Char) (m e : Nat)
    (henc : encode line = .ok (m, t)) (hm : m ≠ 0)
    (hex : read_existing_encoding line = e) (he : e ≠ 0) (hme : m ≠ e) :
    processLine st k line = .ok (⟨true, true⟩, line, [errMsg k e m t line]) := by
  simp [processLine, henc, hm, hex, he, hme, Bind.bind, Except.bind, Pure.pure,
    Except.pure, Ne.symm hme]

/-- Flag behaviour of one driver step: flags only ever go from `false` to
`true`, and when the existing-annotations flag ends up `false` the step
neither changed the flags nor produced a diagnostic. -/
theorem processLine_inv (st : St) (k : Nat) (l : List Char) (st1 : St)
    (out : List Char) (msgs : List (List Char))
    (h : processLine st k l = .ok (st1, out, msgs)) :
    (st.found_error = true → st1.found_error = true) ∧
    (st.found_existing_encodings = true → st1.found_existing_encodings = true) ∧
    (st1.found_existing_encodings = false →
      st.found_existing_encodings = false ∧
      st1.found_error = st.found_error ∧ msgs = []) := by
  cases henc : encode l with
  | error e =>
    simp [processLine, henc, Bind.bind, Except.bind] at h
  | ok p =>
    obtain ⟨m, t⟩ := p
    by_cases hm : m = 0
    · subst hm
      rw [processLine_noMatch st k l t henc] at h
      cases h
      simp
    · by_cases hex0 : read_existing_encoding l = 0
      · rw [processLine_rewrite st k l t m henc hm hex0] at h
        cases h
        simp
      · by_cases hme : m = read_existing_encoding l
        · rw [processLine_consistent st k l t m henc hm hme.symm] at h
          cases h
          simp
        · rw [processLine_conflict st k l t m (read_existing_encoding l)
            henc hm rfl hex0 hme] at h
          cases h
          simp

/-- Invariant of the whole loop: one output line per input line, the
flags are monotone, and when no existing annotation was ever seen the
error flag is unchanged and no diagnostics were produced. -/
theorem runLines_ok_inv (ls : List (List Char)) :
    ∀ st n st' outs errs, runLines st n ls = .ok (st', outs, errs) →
      outs.length = ls.length ∧
      (st.found_error = true → st'.found_error = true) ∧
      (st.found_existing_encodings = true →
        st'.found_existing_encodings = true) ∧
      (st'.found_existing_encodings = false →
        st.found_existing_encodings = false ∧
        st'.found_error = st.found_error ∧ errs = []) := by
  induction ls with
  | nil =>
    intro st n st' outs errs h
    simp only [runLines, Except.ok.injEq, Prod.mk.injEq] at h
    obtain ⟨h1, h2, h3⟩ := h
    subst h1; subst h2; subst h3
    simp
  | cons l ls ih =>
    intro st n st' outs errs h
    cases hp : processLine st n l with
    | error e =>
      simp only [runLines, hp, Bind.bind, Except.bind] at h
      exact Except.noConfusion h
    | ok trp =>
      obtain ⟨st1, out, msgs⟩ := trp
      cases hr : runLines st1 (n + 1) ls with
      | error e =>
        simp only [runLines, hp, hr, Bind.bind, Except.bind] at h
        exact Except.noConfusion h
      | ok trr =>
        obtain ⟨st2, outs2, errs2⟩ := trr
        simp only [runLines, hp, hr, Bind.bind, Except.bind, Pure.pure,
          Except.pure, Except.ok.injEq, Prod.mk.injEq] at h
        obtain ⟨h1, h2, h3⟩ := h
        subst h1; subst h2; subst h3
        obtain ⟨p1, p2, p3⟩ := processLine_inv st n l st1 out msgs hp
        obtain ⟨q1, q2, q3, q4⟩ := ih st1 (n + 1) st2 outs2 errs2 hr
        refine ⟨by simp [q1], fun he => q2 (p1 he), fun hf => q3 (p2 hf), ?_⟩
        intro hfe
        obtain ⟨r1, r2, r3⟩ := q4 hfe
        obtain ⟨s1, s2, s3⟩ := p3 r1
        exact ⟨s1, by rw [r2, s2], by simp [s3, r3]⟩

/-- End-of-run behaviour in terms of the final flags. -/
theorem runProgram_eq (input : List (List Char)) (st : St)
    (outs errs : List (List Char))
    (h : runLines ⟨false, false⟩ 1 input = .ok (st, outs, errs)) :
    runProgram input = .ok (outs,
      errs ++ (if st.found_error = false ∧ st.found_existing_encodings = true
               then [noteMsg] else []),
      if st.found_error then 1 else 0) := by
  simp only [runProgram, h, Bind.bind, Except.bind]
  rcases st with ⟨fex, ferr⟩
  cases ferr <;> cases fex <;> simp [Pure.pure, Except.pure]

/-- Over a list of stable lines the loop is the identity on the lines,
produces no diagnostics, keeps the error flag, and sets the
existing-annotations flag exactly when some line is recognized. -/
theorem runLines_stable (ls : List (List Char)) :
    ∀ st n, (∀ l ∈ ls, lineStable l) →
      runLines st n ls =
        .ok (⟨st.found_existing_encodings || ls.any recognizedB,
              st.found_error⟩, ls, []) := by
  induction ls with
  | nil =>
    intro st n _
    simp [runLines]
  | cons l ls ih =>
    intro st n hst
    have hl : lineStable l := hst l (by simp)
    have hrest : ∀ x ∈ ls, lineStable x := fun x hx => hst x (by simp [hx])
    rcases hl with h0 | ⟨m, t, henc, hm, hex⟩
    · have hrec : recognizedB l = false := by simp [recognizedB, h0]
      simp only [runLines, processLine_noMatch st n l l h0,
        ih st (n + 1) hrest, Bind.bind, Except.bind, Pure.pure, Except.pure]
      simp [List.any_cons, hrec]
    · have hrec : recognizedB l = true := by simp [recognizedB, henc, hm]
      simp only [runLines, processLine_consistent st n l t m henc hm hex,
        ih _ (n + 1) hrest, Bind.bind, Except.bind, Pure.pure, Except.pure]
      simp [List.any_cons, hrec]

/-- A conflicting line anywhere in the input forces the error flag, while
every line (before and after it) is still processed and emitted and the
conflict diagnostic for its 1-based position is among the messages. -/
theorem runLines_conflict_run (line t : List Char) (m e : Nat)
    (henc : encode line = .ok (m, t)) (hm : m ≠ 0)
    (hex : read_existing_encoding line = e) (he : e ≠ 0) (hme : m ≠ e) :
    ∀ (pre : List (List Char)) post st n st' outs errs,
      runLines st n (pre ++ line :: post) = .ok (st', outs, errs) →
      st'.found_error = true ∧
      outs.length = pre.length + 1 + post.length ∧
      errMsg (n + pre.length) e m t line ∈ errs := by
  intro pre
  induction pre with
  | nil =>
    intro post st n st' outs errs h
    rw [List.nil_append] at h
    cases hr : runLines ⟨true, true⟩ (n + 1) post with
    | error e2 =>
      simp only [runLines, processLine_conflict st n line t m e henc hm hex he hme,
        hr, Bind.bind, Except.bind] at h
      exact Except.noConfusion h
    | ok trr =>
      obtain ⟨st2, outs2, errs2⟩ := trr
      simp only [runLines, processLine_conflict st n line t m e henc hm hex he hme,
        hr, Bind.bind, Except.bind, Pure.pure, Except.pure, Except.ok.injEq,
        Prod.mk.injEq] at h
      obtain ⟨h1, h2, h3⟩ := h
      subst h1; subst h2; subst h3
      obtain ⟨q1, q2, q3, q4⟩ :=
        runLines_ok_inv post ⟨true, true⟩ (n + 1) st2 outs2 errs2 hr
      refine ⟨q2 rfl, by simp [q1]; omega, ?_⟩
      simp
  | cons p pre ih =>
    intro post st n st' outs errs h
    rw [List.cons_append] at h
    cases hp : processLine st n p with
    | error e2 =>
      simp only [runLines, hp, Bind.bind, Except.bind] at h
      exact Except.noConfusion h
    | ok trp =>
      obtain ⟨st1, out, msgs⟩ := trp
      cases hr : runLines st1 (n + 1) (pre ++ line :: post) with
      | error e2 =>
        simp only [runLines, hp, hr, Bind.bind, Except.bind] at h
        exact Except.noConfusion h
      | ok trr =>
        obtain ⟨st2, outs2, errs2⟩ := trr
        simp only [runLines, hp, hr, Bind.bind, Except.bind, Pure.pure,
          Except.pure, Except.ok.injEq, Prod.mk.injEq] at h
        obtain ⟨h1, h2, h3⟩ := h
        subst h1; subst h2; subst h3
        obtain ⟨r1, r2, r3⟩ := ih post st1 (n + 1) st2 outs2 errs2 hr
        refine ⟨r1, ?_, ?_⟩
        · simp only [List.length_cons, r2]
          omega
        · have harith : n + (p :: pre).length = n + 1 + pre.length := by
            simp only [List.length_cons]
            omega
          rw [harith]
          exact List.mem_append_right msgs r3

/-- A list is a part of itself followed by anything. -/
theorem infix_here (x b : List Char) : x <:+: x ++ b :=
  ⟨[], b, by simp⟩

/-- Skipping one leading block keeps a part a part. -/
theorem infix_there (x a b : List Char) (h : x <:+: b) : x <:+: a ++ b := by
  obtain ⟨s, t, rfl⟩ := h
  exact ⟨a ++ s, t, by simp⟩

/-- Destructing a literal token at the head of a successful match. -/
theorem matchToks_lit_cons (c : Char) (ts : List Tok) (s : List Char)
    (n : Nat) (cp : Caps)
    (h : matchToks (Tok.one (.lit c) :: ts) s = some (n, cp)) :
    ∃ s' n', s = c :: s' ∧ matchToks ts s' = some (n', cp) ∧ n = n' + 1 := by
  cases s with
  | nil => simp [matchToks] at h
  | cons a s' =>
    simp only [matchToks] at h
    by_cases ha : CClass.test (.lit c) a
    · rw [if_pos ha] at h
      cases hm : matchToks ts s' with
      | none => rw [hm] at h; exact Option.noConfusion h
      | some p =>
        obtain ⟨n', cp'⟩ := p
        rw [hm] at h
        simp only [Option.some.injEq, Prod.mk.injEq] at h
        obtain ⟨h1, h2⟩ := h
        have hac : a = c := by
          simpa [CClass.test] using ha
        subst hac; subst h2
        exact ⟨s', n', rfl, hm, h1.symm⟩
    · rw [if_neg ha] at h
      exact Option.noConfusion h

/-- A captured `+` class at the head of a successful match starts with a
character of the class. -/
theorem matchToks_grpPlus_head (g : Nat) (c : CClass) (ts : List Tok)
    (s : List Char) (n : Nat) (cp : Caps)
    (h : matchToks (Tok.grpPlus g c :: ts) s = some (n, cp)) :
    ∃ a s', s = a :: s' ∧ CClass.test c a = true := by
  cases s with
  | nil => simp [matchToks, maxRun] at h
  | cons a s' =>
    by_cases ha : CClass.test c a
    · exact ⟨a, s', rfl, ha⟩
    · simp [matchToks, maxRun, ha] at h

/-- A successful search yields a successful match at some suffix. -/
theorem searchAux_exists (needB : Bool) (toks : List Tok) :
    ∀ (s : List Char) prev idx r, searchAux needB toks prev idx s = some r →
      ∃ j n cp, matchToks toks (List.drop j s) = some (n, cp) := by
  intro s
  induction s with
  | nil =>
    intro prev idx r h
    cases hb : (if bOkFor needB prev then matchToks toks [] else none) with
    | none =>
      simp only [searchAux, hb] at h
      exact Option.noConfusion h
    | some p =>
      obtain ⟨n, cp⟩ := p
      refine ⟨0, n, cp, ?_⟩
      split at hb
      · simpa using hb
      · exact Option.noConfusion hb
  | cons a s' ih =>
    intro prev idx r h
    cases hb : (if bOkFor needB prev then matchToks toks (a :: s') else none) with
    | none =>
      simp only [searchAux, hb] at h
      obtain ⟨j, n, cp, hj⟩ := ih (some a) (idx + 1) r h
      exact ⟨j + 1, n, cp, by simpa using hj⟩
    | some p =>
      obtain ⟨n, cp⟩ := p
      refine ⟨0, n, cp, ?_⟩
      split at hb
      · simpa using hb
      · exact Option.noConfusion hb

/-- Shape of any successful match of the `.word` pattern: the matched
suffix starts with the literal characters `.word 0x` followed by at least
one lower-case hexadecimal digit. -/
theorem matchToks_wordToks_shape (s : List Char) (n : Nat) (cp : Caps)
    (h : matchToks wordToks s = some (n, cp)) :
    List.take 8 s = (".word 0x").toList ∧
    ∃ c rest, List.drop 8 s = c :: rest ∧ CClass.test .lhex c = true := by
  have hw : wordToks =
      Tok.one (.lit '.') :: Tok.one (.lit 'w') :: Tok.one (.lit 'o') ::
      Tok.one (.lit 'r') :: Tok.one (.lit 'd') :: Tok.one (.lit ' ') ::
      Tok.one (.lit '0') :: Tok.one (.lit 'x') :: [Tok.grpPlus 1 .lhex] := rfl
  rw [hw] at h
  obtain ⟨s1, n1, rfl, h, -⟩ := matchToks_lit_cons _ _ _ _ _ h
  obtain ⟨s2, n2, rfl, h, -⟩ := matchToks_lit_cons _ _ _ _ _ h
  obtain ⟨s3, n3, rfl, h, -⟩ := matchToks_lit_cons _ _ _ _ _ h
  obtain ⟨s4, n4, rfl, h, -⟩ := matchToks_lit_cons _ _ _ _ _ h
  obtain ⟨s5, n5, rfl, h, -⟩ := matchToks_lit_cons _ _ _ _ _ h
  obtain ⟨s6, n6, rfl, h, -⟩ := matchToks_lit_cons _ _ _ _ _ h
  obtain ⟨s7, n7, rfl, h, -⟩ := matchToks_lit_cons _ _ _ _ _ h
  obtain ⟨s8, n8, rfl, h, -⟩ := matchToks_lit_cons _ _ _ _ _ h
  obtain ⟨c, rest, rfl, hc⟩ := matchToks_grpPlus_head _ _ _ _ _ _ h
  exact ⟨rfl, c, rest, rfl, hc⟩

end Helpers

/-- C1: for every input line on which the vector-form `udot` recognition
pattern matches with captured register indices `accum`, `lhs`, `rhs` each
at most 31, the Encoder returns the machine-code word
`0x6e809400 ||| accum ||| (lhs <<< 5) ||| (rhs <<< 16)` together with the
matched substring, and that word is nonzero; in particular on the line
`udot v16.4s, v4.16b, v0.16b` the program computes `0x6e809490`, emits
`.word 0x6e809490  // udot v16.4s, v4.16b, v0.16b` and exits with 0. -/
theorem C1_vector_encoding (line : List Char) (idx n : Nat) (cp : Caps)
    (h : pysearch true vectorToks line = some (idx, n, cp))
    (ha : decVal (capOf cp 1) ≤ 31) (hl : decVal (capOf cp 2) ≤ 31)
    (hr : decVal (capOf cp 3) ≤ 31) :
    encode_udot_vector line =
      .ok (0x6e809400 ||| decVal (capOf cp 1) ||| (decVal (capOf cp 2) <<< 5) |||
        (decVal (capOf cp 3) <<< 16), (line.drop idx).take n) ∧
    0x6e809400 ||| decVal (capOf cp 1) ||| (decVal (capOf cp 2) <<< 5) |||
      (decVal (capOf cp 3) <<< 16) ≠ 0 ∧
    runProgram [("udot v16.4s, v4.16b, v0.16b\n").toList] =
      .ok ([(".word 0x6e809490  // udot v16.4s, v4.16b, v0.16b\n").toList],
        [], 0) := by
  refine ⟨?_, ?_, ?_⟩
  · simp [encode_udot_vector, h, ha, hl, hr]
  · exact or_ne_zero_left _ _ (or_ne_zero_left _ _ (or_ne_zero_left _ _ (by decide)))
  · rfl

/-- Witness for C1: the concrete example line, with the concrete match
result of the recognition pattern discharging the hypotheses. -/
theorem C1_vector_encoding_witness :
    encode_udot_vector (("udot v16.4s, v4.16b, v0.16b\n").toList) =
      .ok (0x6e809490, ("udot v16.4s, v4.16b, v0.16b").toList) ∧
    runProgram [("udot v16.4s, v4.16b, v0.16b\n").toList] =
      .ok ([(".word 0x6e809490  // udot v16.4s, v4.16b, v0.16b\n").toList],
        [], 0) := by
  obtain ⟨h1, h2, h3⟩ :=
    C1_vector_encoding (("udot v16.4s, v4.16b, v0.16b\n").toList)
      0 27 [(1, ['1', '6']), (2, ['4']), (3, ['0'])] rfl
      (by decide) (by decide) (by decide)
  exact ⟨h1, h3⟩

/-- C2: for every input line on which the indexed/element-form `udot`
recognition pattern matches with captured register indices at most 31 and
captured lane-group digit `g` at most 3, the Encoder returns
`0x6f80e000 ||| accum ||| (lhs <<< 5) ||| (rhs <<< 16) |||
((g &&& 1) <<< 21) ||| (((g >>> 1) &&& 1) <<< 11)`: the low bit of the
lane group lands at bit 21 and the high bit at bit 11. -/
theorem C2_element_encoding (line : List Char) (idx n : Nat) (cp : Caps)
    (h : pysearch true elementToks line = some (idx, n, cp))
    (ha : decVal (capOf cp 1) ≤ 31) (hl : decVal (capOf cp 2) ≤ 31)
    (hr : decVal (capOf cp 3) ≤ 31) (hg : decVal (capOf cp 4) ≤ 3) :
    encode_udot_element line =
      .ok (0x6f80e000 ||| decVal (capOf cp 1) ||| (decVal (capOf cp 2) <<< 5) |||
        (decVal (capOf cp 3) <<< 16) ||| ((decVal (capOf cp 4) &&& 1) <<< 21) |||
        (((decVal (capOf cp 4) >>> 1) &&& 1) <<< 11),
        (line.drop idx).take n) := by
  have h4 : decVal (capOf cp 4) = 0 ∨ decVal (capOf cp 4) = 1 ∨
      decVal (capOf cp 4) = 2 ∨ decVal (capOf cp 4) = 3 := by omega
  have hmod : (if decVal (capOf cp 4) % 2 = 0 then (0 : Nat) else 1) =
      decVal (capOf cp 4) % 2 := by
    rcases Nat.mod_two_eq_zero_or_one (decVal (capOf cp 4)) with h2 | h2 <;>
      simp [h2]
  have hand2 : (if decVal (capOf cp 4) &&& 2 = 0 then (0 : Nat) else 1) =
      decVal (capOf cp 4) >>> 1 % 2 := by
    rcases h4 with h4 | h4 | h4 | h4 <;> rw [h4] <;> decide
  simp [encode_udot_element, h, ha, hl, hr, hg, hmod, hand2]

/-- Witness for C2: the concrete indexed-form line
`udot v1.4s, v2.16b, v3.4b[2]`, lane group 2. -/
theorem C2_element_encoding_witness :
    encode_udot_element (("udot v1.4s, v2.16b, v3.4b[2]\n").toList) =
      .ok (0x6f83e841, ("udot v1.4s, v2.16b, v3.4b[2]").toList) := by
  have h1 :=
    C2_element_encoding (("udot v1.4s, v2.16b, v3.4b[2]\n").toList)
      0 28 [(1, ['1']), (2, ['2']), (3, ['3']), (4, ['2'])] rfl
      (by decide) (by decide) (by decide) (by decide)
  exact h1

/-- C3 counterexample: on the input line `udot v1.4s, v2.16b, v3.4b[2]`
the program emits `.word 0x6f83e841  // udot v1.4s, v2.16b, v3.4b[2]`
(bit 11 set by the lane-group high bit, `0x800`), not the word
`0x6f83e041` stated by the claim; the two output lines differ. -/
theorem C3_element_example_cex :
    runProgram [("udot v1.4s, v2.16b, v3.4b[2]\n").toList] =
      .ok ([(".word 0x6f83e841  // udot v1.4s, v2.16b, v3.4b[2]\n").toList],
        [], 0) ∧
    (".word 0x6f83e841  // udot v1.4s, v2.16b, v3.4b[2]\n").toList ≠
      (".word 0x6f83e041  // udot v1.4s, v2.16b, v3.4b[2]\n").toList ∧
    runProgram [("udot v1.4s, v2.16b, v3.4b[2]\n").toList] ≠
      .ok ([(".word 0x6f83e041  // udot v1.4s, v2.16b, v3.4b[2]\n").toList],
        [], 0) := by
  have h1 : runProgram [("udot v1.4s, v2.16b, v3.4b[2]\n").toList] =
      .ok ([(".word 0x6f83e841  // udot v1.4s, v2.16b, v3.4b[2]\n").toList],
        [], 0) := rfl
  refine ⟨h1, by decide, ?_⟩
  intro h2
  rw [h1] at h2
  simp only [Except.ok.injEq, Prod.mk.injEq, List.cons.injEq] at h2
  exact absurd h2.1.1 (by decide)

/-- C3 amended: for the single input line `udot v1.4s, v2.16b, v3.4b[2]`
(accum 1, lhs 2, rhs 3, lane group 2, so low bit 0 and high bit 1) the
program outputs `.word 0x6f83e841  // udot v1.4s, v2.16b, v3.4b[2]` and
exits with status 0. -/
theorem C3_element_example :
    encode (("udot v1.4s, v2.16b, v3.4b[2]\n").toList) =
      .ok (0x6f83e841, ("udot v1.4s, v2.16b, v3.4b[2]").toList) ∧
    runProgram [("udot v1.4s, v2.16b, v3.4b[2]\n").toList] =
      .ok ([(".word 0x6f83e841  // udot v1.4s, v2.16b, v3.4b[2]\n").toList],
        [], 0) :=
  ⟨rfl, rfl⟩

/-- C4 counterexample: on the line `udot v32.4s, v0.16b, v0.16b` the
vector recognition pattern does match — `[0-9]+` captures the two-digit
index 32 — and the range assertion fires, aborting the run: the
out-of-range abort is reachable. -/
theorem C4_assert_reachable_cex :
    pysearch true vectorToks (("udot v32.4s, v0.16b, v0.16b\n").toList) =
      some (0, 27, [(1, ['3', '2']), (2, ['0']), (3, ['0'])]) ∧
    decVal (capOf [(1, ['3', '2']), (2, ['0']), (3, ['0'])] 1) = 32 ∧
    ¬(32 : Nat) ≤ 31 ∧
    encode_udot_vector (("udot v32.4s, v0.16b, v0.16b\n").toList) =
      .error () ∧
    runProgram [("udot v32.4s, v0.16b, v0.16b\n").toList] = .error () :=
  ⟨rfl, by decide, by decide, rfl, rfl⟩

/-- C4 amended: the recognition patterns capture digit strings of
unbounded value (`[0-9]+` for registers, one digit for the lane group),
so captured values outside the asserted ranges are possible; the fatal
abort happens exactly when the pattern matches and some captured value is
out of range, and never when all captured values are in range. -/
theorem C4_assert_characterization :
    (∀ line : List Char,
      encode_udot_vector line = .error () ↔
        ∃ idx n cp, pysearch true vectorToks line = some (idx, n, cp) ∧
          ¬(decVal (capOf cp 1) ≤ 31 ∧ decVal (capOf cp 2) ≤ 31 ∧
            decVal (capOf cp 3) ≤ 31)) ∧
    (∀ line : List Char,
      encode_udot_element line = .error () ↔
        ∃ idx n cp, pysearch true elementToks line = some (idx, n, cp) ∧
          ¬(decVal (capOf cp 1) ≤ 31 ∧ decVal (capOf cp 2) ≤ 31 ∧
            decVal (capOf cp 3) ≤ 31 ∧ decVal (capOf cp 4) ≤ 3)) := by
  constructor
  · intro line
    constructor
    · intro h
      cases hp : pysearch true vectorToks line with
      | none => simp [encode_udot_vector, hp] at h
      | some trip =>
        obtain ⟨idx, n, cp⟩ := trip
        refine ⟨idx, n, cp, rfl, ?_⟩
        intro hc
        simp [encode_udot_vector, hp, hc.1, hc.2.1, hc.2.2] at h
    · rintro ⟨idx, n, cp, hp, hc⟩
      simp [encode_udot_vector, hp, hc]
  · intro line
    constructor
    · intro h
      cases hp : pysearch true elementToks line with
      | none => simp [encode_udot_element, hp] at h
      | some trip =>
        obtain ⟨idx, n, cp⟩ := trip
        refine ⟨idx, n, cp, rfl, ?_⟩
        intro hc
        simp [encode_udot_element, hp, hc.1, hc.2.1, hc.2.2.1, hc.2.2.2] at h
    · rintro ⟨idx, n, cp, hp, hc⟩
      simp [encode_udot_element, hp, hc]

/-- C5 counterexample: on a line containing the matched instruction text
twice, Python's `str.replace` substitutes both occurrences, not exactly
one: the emitted line differs from the single-substitution line. -/
theorem C5_single_substitution_cex :
    runProgram
      [("udot v0.4s, v0.16b, v0.16b and udot v0.4s, v0.16b, v0.16b\n").toList] =
      .ok ([(".word 0x6e809400  // udot v0.4s, v0.16b, v0.16b and .word 0x6e809400  // udot v0.4s, v0.16b, v0.16b\n").toList],
        [], 0) ∧
    (".word 0x6e809400  // udot v0.4s, v0.16b, v0.16b and .word 0x6e809400  // udot v0.4s, v0.16b, v0.16b\n").toList ≠
      (".word 0x6e809400  // udot v0.4s, v0.16b, v0.16b and udot v0.4s, v0.16b, v0.16b\n").toList :=
  ⟨rfl, by decide⟩

/-- C5 amended: rules are tried in a fixed priority order (vector form
first), the first rule returning a nonzero word is used and the element
rule is not consulted; when a rule matched and no existing annotation was
found, the emitted line substitutes every occurrence of the matched
substring (`str.replace` replaces all occurrences, which is exactly one
whenever the matched text occurs once in the line). -/
theorem C5_first_match_policy :
    (∀ line m t, encode_udot_vector line = .ok (m, t) → m ≠ 0 →
      encode line = .ok (m, t)) ∧
    (∀ line m t, pysearch true vectorToks line = none →
      encode_udot_element line = .ok (m, t) → m ≠ 0 →
      encode line = .ok (m, t)) ∧
    (∀ st k line m t, encode line = .ok (m, t) → m ≠ 0 →
      read_existing_encoding line = 0 →
      processLine st k line = .ok (st, replaceAll line t (directiveFor m t), [])) := by
  refine ⟨?_, ?_, ?_⟩
  · intro line m t hv hm
    simp [encode, hv, hm, Bind.bind, Except.bind, Pure.pure, Except.pure]
  · intro line m t hv helem hm
    have h1 : encode_udot_vector line = .ok (0, line) := by
      simp [encode_udot_vector, hv]
    simp [encode, h1, helem, hm, Bind.bind, Except.bind, Pure.pure, Except.pure]
  · intro st k line m t henc hm hex
    exact processLine_rewrite st k line t m henc hm hex

/-- Witness for C5: the two demo lines exercise the vector-first rule,
the element fallback, and the rewrite with the substituted directive. -/
theorem C5_first_match_policy_witness :
    encode (("udot v16.4s, v4.16b, v0.16b\n").toList) =
      .ok (0x6e809490, ("udot v16.4s, v4.16b, v0.16b").toList) ∧
    encode (("udot v1.4s, v2.16b, v3.4b[2]\n").toList) =
      .ok (0x6f83e841, ("udot v1.4s, v2.16b, v3.4b[2]").toList) ∧
    processLine ⟨false, false⟩ 1 (("udot v16.4s, v4.16b, v0.16b\n").toList) =
      .ok (⟨false, false⟩,
        (".word 0x6e809490  // udot v16.4s, v4.16b, v0.16b\n").toList, []) := by
  obtain ⟨c1, c2, c3⟩ := C5_first_match_policy
  have h1 := c1 (("udot v16.4s, v4.16b, v0.16b\n").toList) 0x6e809490
    (("udot v16.4s, v4.16b, v0.16b").toList) rfl (by decide)
  have h2 := c2 (("udot v1.4s, v2.16b, v3.4b[2]\n").toList) 0x6f83e841
    (("udot v1.4s, v2.16b, v3.4b[2]").toList) rfl rfl (by decide)
  have h3 := c3 ⟨false, false⟩ 1 (("udot v16.4s, v4.16b, v0.16b\n").toList)
    0x6e809490 (("udot v16.4s, v4.16b, v0.16b").toList) h1 (by decide) rfl
  exact ⟨h1, h2, h3⟩

/-- C9: on a line where neither recognition rule matches, both encoders
and `encode` return the zero word paired with the original line, the
emitted output line is the input line byte for byte, and no diagnostic is
produced for that line. -/
theorem C9_passthrough (line : List Char)
    (hv : pysearch true vectorToks line = none)
    (he : pysearch true elementToks line = none) :
    encode line = .ok (0, line) ∧
    encode_udot_vector line = .ok (0, line) ∧
    encode_udot_element line = .ok (0, line) ∧
    ∀ st k, processLine st k line = .ok (st, line, []) := by
  have h1 : encode_udot_vector line = .ok (0, line) := by
    simp [encode_udot_vector, hv]
  have h2 : encode_udot_element line = .ok (0, line) := by
    simp [encode_udot_element, he]
  have h3 : encode line = .ok (0, line) := by
    simp [encode, h1, h2, Bind.bind, Except.bind, Pure.pure, Except.pure]
  exact ⟨h3, h1, h2, fun st k => processLine_noMatch st k line line h3⟩

/-- Witness for C9: an ordinary assembly line with no `udot`. -/
theorem C9_passthrough_witness :
    encode (("mov x0, x1\n").toList) = .ok (0, ("mov x0, x1\n").toList) ∧
    processLine ⟨false, false⟩ 1 (("mov x0, x1\n").toList) =
      .ok (⟨false, false⟩, ("mov x0, x1\n").toList, []) := by
  obtain ⟨h1, h2, h3, h4⟩ := C9_passthrough (("mov x0, x1\n").toList) rfl rfl
  exact ⟨h1, h4 ⟨false, false⟩ 1⟩

/-- C10 counterexample: on a line whose directive is `.word 0x12AB` — an
upper-case tail after a lower-case-valid prefix — the reader returns
`0x12`, not 0, so the recognized instruction on that line is
conflict-checked (diagnostic, unchanged line, exit 1) rather than being
treated as unannotated and rewritten. -/
theorem C10_reader_cex :
    read_existing_encoding
      (("udot v0.4s, v0.16b, v0.16b .word 0x12AB\n").toList) = 0x12 ∧
    (0x12 : Nat) ≠ 0 ∧
    runProgram [("udot v0.4s, v0.16b, v0.16b .word 0x12AB\n").toList] =
      .ok ([("udot v0.4s, v0.16b, v0.16b .word 0x12AB\n").toList],
        [errMsg 1 0x12 0x6e809400 (("udot v0.4s, v0.16b, v0.16b").toList)
          (("udot v0.4s, v0.16b, v0.16b .word 0x12AB\n").toList)], 1) :=
  ⟨rfl, by decide, rfl⟩

/-- C10 amended: the reader returns a nonzero value only when the line
contains `.word`, one space, `0x` and at least one lower-case hex digit;
a directive with different spacing or an upper-case first digit reads as
0 and the line is rewritten with an additional directive, while a
directive whose digits start with a lower-case-valid run reads the value
of that maximal run (so `.word 0x12AB` reads `0x12` and the line is
conflict-checked instead of rewritten). -/
theorem C10_reader_characterization :
    (∀ s : List Char, read_existing_encoding s ≠ 0 →
      ∃ j c rest, List.take 8 (List.drop j s) = (".word 0x").toList ∧
        List.drop 8 (List.drop j s) = c :: rest ∧
        CClass.test .lhex c = true) ∧
    read_existing_encoding ((".word 0xAB12\n").toList) = 0 ∧
    read_existing_encoding ((".word  0x12\n").toList) = 0 ∧
    read_existing_encoding ((".word 0x12AB\n").toList) = 0x12 ∧
    runProgram [("udot v0.4s, v0.16b, v0.16b .word 0xAB12\n").toList] =
      .ok ([(".word 0x6e809400  // udot v0.4s, v0.16b, v0.16b .word 0xAB12\n").toList],
        [], 0) := by
  refine ⟨?_, rfl, rfl, rfl, rfl⟩
  intro s hne
  cases hp : pysearch false wordToks s with
  | none => simp [read_existing_encoding, hp] at hne
  | some r =>
    obtain ⟨j, n, cp, hj⟩ := searchAux_exists false wordToks s none 0 r hp
    obtain ⟨hk1, c, rest, hk2, hk3⟩ := matchToks_wordToks_shape _ _ _ hj
    exact ⟨j, c, rest, hk1, hk2, hk3⟩

/-- C7: on a recognized line whose nonzero existing annotation differs
from the computed word, the driver emits the line unmodified, produces a
diagnostic containing the 1-based line number, both words, the matched
substring and the full original line, and — wherever such a line sits in
the input — every line is still processed and emitted, the diagnostic for
its position is among the messages, and the exit status is 1. -/
theorem C7_conflict_reporting (st : St) (k : Nat) (line t : List Char)
    (m e : Nat)
    (henc : encode line = .ok (m, t)) (hm : m ≠ 0)
    (hex : read_existing_encoding line = e) (he : e ≠ 0) (hme : m ≠ e) :
    processLine st k line = .ok (⟨true, true⟩, line, [errMsg k e m t line]) ∧
    natDec k <:+: errMsg k e m t line ∧
    natHex e <:+: errMsg k e m t line ∧
    natHex m <:+: errMsg k e m t line ∧
    t <:+: errMsg k e m t line ∧
    line <:+: errMsg k e m t line ∧
    (∀ pre post st' outs errs,
      runLines ⟨false, false⟩ 1 (pre ++ line :: post) = .ok (st', outs, errs) →
      st'.found_error = true ∧
      outs.length = pre.length + 1 + post.length ∧
      errMsg (1 + pre.length) e m t line ∈ errs ∧
      runProgram (pre ++ line :: post) = .ok (outs, errs, 1)) := by
  have hmsg : errMsg k e m t line =
      ("Error at line ").toList ++ (natDec k ++
      ((": existing encoding 0x").toList ++ (natHex e ++
      ((" differs from encoding 0x").toList ++ (natHex m ++
      ((" for instruction ").toList ++ ([squote] ++ (t ++ ([squote] ++
      ((":\n\n").toList ++ (line ++ ("\n\n").toList))))))))))) := by
    simp [errMsg, List.append_assoc]
  refine ⟨processLine_conflict st k line t m e henc hm hex he hme,
    ?_, ?_, ?_, ?_, ?_, ?_⟩
  · rw [hmsg]
    exact infix_there _ _ _ (infix_here _ _)
  · rw [hmsg]
    exact infix_there _ _ _ (infix_there _ _ _ (infix_there _ _ _
      (infix_here _ _)))
  · rw [hmsg]
    exact infix_there _ _ _ (infix_there _ _ _ (infix_there _ _ _
      (infix_there _ _ _ (infix_there _ _ _ (infix_here _ _)))))
  · rw [hmsg]
    exact infix_there _ _ _ (infix_there _ _ _ (infix_there _ _ _
      (infix_there _ _ _ (infix_there _ _ _ (infix_there _ _ _
      (infix_there _ _ _ (infix_there _ _ _ (infix_here _ _))))))))
  · rw [hmsg]
    exact infix_there _ _ _ (infix_there _ _ _ (infix_there _ _ _
      (infix_there _ _ _ (infix_there _ _ _ (infix_there _ _ _
      (infix_there _ _ _ (infix_there _ _ _ (infix_there _ _ _
      (infix_there _ _ _ (infix_there _ _ _ (infix_here _ _)))))))))))
  · intro pre post st' outs errs hrun
    obtain ⟨r1, r2, r3⟩ := runLines_conflict_run line t m e henc hm hex he hme
      pre post ⟨false, false⟩ 1 st' outs errs hrun
    refine ⟨r1, r2, r3, ?_⟩
    have hp := runProgram_eq (pre ++ line :: post) st' outs errs hrun
    rw [hp]
    simp [r1]

/-- Witness for C7: a line annotated with the wrong word `0x12ab`. -/
theorem C7_conflict_reporting_witness :
    processLine ⟨false, false⟩ 1
      (("udot v0.4s, v0.16b, v0.16b .word 0x12ab\n").toList) =
      .ok (⟨true, true⟩, ("udot v0.4s, v0.16b, v0.16b .word 0x12ab\n").toList,
        [errMsg 1 0x12ab 0x6e809400 (("udot v0.4s, v0.16b, v0.16b").toList)
          (("udot v0.4s, v0.16b, v0.16b .word 0x12ab\n").toList)]) ∧
    runProgram [("udot v0.4s, v0.16b, v0.16b .word 0x12ab\n").toList] =
      .ok ([("udot v0.4s, v0.16b, v0.16b .word 0x12ab\n").toList],
        [errMsg 1 0x12ab 0x6e809400 (("udot v0.4s, v0.16b, v0.16b").toList)
          (("udot v0.4s, v0.16b, v0.16b .word 0x12ab\n").toList)], 1) := by
  obtain ⟨h1, h2, h3, h4, h5, h6, h7⟩ :=
    C7_conflict_reporting ⟨false, false⟩ 1
      (("udot v0.4s, v0.16b, v0.16b .word 0x12ab\n").toList)
      (("udot v0.4s, v0.16b, v0.16b").toList) 0x6e809400 0x12ab
      rfl (by decide) rfl (by decide) (by decide)
  obtain ⟨w1, w2, w3, w4⟩ := h7 [] []
    ⟨true, true⟩ [("udot v0.4s, v0.16b, v0.16b .word 0x12ab\n").toList]
    [errMsg 1 0x12ab 0x6e809400 (("udot v0.4s, v0.16b, v0.16b").toList)
      (("udot v0.4s, v0.16b, v0.16b .word 0x12ab\n").toList)] rfl
  exact ⟨h1, w4⟩

/-- C8: the exit status is 0 exactly when no conflict was recorded; the
informational note is appended to the diagnostics exactly when existing
annotations were seen without any conflict; and when no existing
annotation was seen at all, the run exits 0 with an empty diagnostic
stream. -/
theorem C8_exit_status (input : List (List Char)) (st : St)
    (outs errs : List (List Char))
    (h : runLines ⟨false, false⟩ 1 input = .ok (st, outs, errs)) :
    runProgram input = .ok (outs,
      errs ++ (if st.found_error = false ∧ st.found_existing_encodings = true
               then [noteMsg] else []),
      if st.found_error then 1 else 0) ∧
    ((if st.found_error then (1 : Nat) else 0) = 0 ↔ st.found_error = false) ∧
    (st.found_existing_encodings = false →
      st.found_error = false ∧ errs = [] ∧
      runProgram input = .ok (outs, [], 0)) := by
  refine ⟨runProgram_eq input st outs errs h, ?_, ?_⟩
  · cases hf : st.found_error <;> simp [hf]
  · intro hfe
    obtain ⟨q1, q2, q3, q4⟩ := runLines_ok_inv input ⟨false, false⟩ 1 st outs errs h
    obtain ⟨r1, r2, r3⟩ := q4 hfe
    refine ⟨r2, r3, ?_⟩
    have hp := runProgram_eq input st outs errs h
    rw [hp]
    simp [r2, hfe, r3]

/-- Witness for C8: the demo line, which is rewritten with no existing
annotation, so the run exits 0 with an empty diagnostic stream. -/
theorem C8_exit_status_witness :
    runProgram [("udot v16.4s, v4.16b, v0.16b\n").toList] =
      .ok ([(".word 0x6e809490  // udot v16.4s, v4.16b, v0.16b\n").toList],
        [], 0) := by
  obtain ⟨h1, h2, h3⟩ := C8_exit_status
    [("udot v16.4s, v4.16b, v0.16b\n").toList] ⟨false, false⟩
    [(".word 0x6e809490  // udot v16.4s, v4.16b, v0.16b\n").toList] [] rfl
  obtain ⟨_, _, h33⟩ := h3 rfl
  exact h33

/-- C6 counterexample: a first run rewrites the adversarial line below
and exits 0, but a second run on that output is not the identity — the
original instruction text, now preceded by the directive's comment and
followed by the text ` 16b`, re-matches the vector pattern with the
greedy digit capture `9716` as the right operand, the range assertion
fires, and the second run aborts instead of leaving the output unchanged
with an informational note and success. -/
theorem C6_idempotence_cex :
    runProgram
      [("xudot v1.4s, v2.16b, v9716b 16b udot v1.4s, v2.16b, v9716b\n").toList] =
      .ok ([("x.word 0x6e899441  // udot v1.4s, v2.16b, v9716b 16b .word 0x6e899441  // udot v1.4s, v2.16b, v9716b\n").toList],
        [], 0) ∧
    runProgram
      [("x.word 0x6e899441  // udot v1.4s, v2.16b, v9716b 16b .word 0x6e899441  // udot v1.4s, v2.16b, v9716b\n").toList] =
      .error () :=
  ⟨rfl, rfl⟩

/-- C6 amended: a second run on the first run's output reproduces that
output with no conflict and exit status 0 provided every output line is
stable — unrecognized, or recognized with its read-back annotation equal
to the freshly computed word (true for ordinary rewritten lines but not
in general, see the counterexample); the informational note is emitted
exactly when at least one output line is recognized. -/
theorem C6_idempotent_on_stable (input out1 errs1 : List (List Char))
    (_hfst : runProgram input = .ok (out1, errs1, 0))
    (hst : ∀ l ∈ out1, lineStable l) :
    runProgram out1 =
      .ok (out1, if out1.any recognizedB then [noteMsg] else [], 0) := by
  have h2 := runLines_stable out1 ⟨false, false⟩ 1 hst
  have h3 := runProgram_eq out1 _ out1 [] h2
  rw [h3]
  cases hany : out1.any recognizedB <;> simp [hany]

/-- Witness for C6: the demo line's output is stable, and re-running on
it reproduces it with the informational note and exit status 0. -/
theorem C6_idempotent_on_stable_witness :
    runProgram [(".word 0x6e809490  // udot v16.4s, v4.16b, v0.16b\n").toList] =
      .ok ([(".word 0x6e809490  // udot v16.4s, v4.16b, v0.16b\n").toList],
        [noteMsg], 0) := by
  have hst : ∀ l ∈ [(".word 0x6e809490  // udot v16.4s, v4.16b, v0.16b\n").toList],
      lineStable l := by
    intro l hl
    simp only [List.mem_singleton] at hl
    subst hl
    right
    exact ⟨0x6e809490, ("udot v16.4s, v4.16b, v0.16b").toList, rfl,
      by decide, rfl⟩
  have h := C6_idempotent_on_stable
    [("udot v16.4s, v4.16b, v0.16b\n").toList]
    [(".word 0x6e809490  // udot v16.4s, v4.16b, v0.16b\n").toList] [] rfl hst
  have hany : ([(".word 0x6e809490  // udot v16.4s, v4.16b, v0.16b\n").toList]).any
      recognizedB = true := rfl
  rw [hany] at h
  simpa using h
